import Mathlib

/-!
Verification of the gafka gateway core against its specification.

The development shallowly embeds the Go source of three subsystems:
* the subscribe-server ack committer (`subServer.ackCommitter` /
  `subServer.commitOffsets` and the idle-connection tracker
  `subServer.connStateHandler` from the gateway package),
* the hinted-handoff disk Service (`disk.Service` from cmd/kateway/hh/disk),
* the delayed-job executor handler (`JobExecutor.handleDueJobs` from the
  executor package).

Go maps are embedded as association lists with first-match lookup and
in-place-update insertion; a Go map assignment whose target map is nil is
embedded as `Option.none` (the Go runtime panics there).  External
collaborators (the coordination store, the broker publisher, the RDBMS and
the disk scanner) are embedded as oracle functions supplied as arguments.
-/

namespace Gafka

/-! ## Association lists embedding Go maps -/

/-- First-match lookup, `v, ok := m[k]` on a Go map. -/
def alLookup {α β : Type} [DecidableEq α] (m : List (α × β)) (k : α) : Option β :=
  match m with
  | [] => none
  | (k', v) :: rest => if k = k' then some v else alLookup rest k

/-- `m[k] = v` on a Go map: replace in place if the key exists, else add. -/
def alInsert {α β : Type} [DecidableEq α] (m : List (α × β)) (k : α) (v : β) :
    List (α × β) :=
  match m with
  | [] => [(k, v)]
  | (k', v') :: rest => if k = k' then (k, v) :: rest else (k', v') :: alInsert rest k v

/-! ## Ack committer data model (subServer, part of the gateway package)

`ackedOffsets map[string]map[string]map[string]map[int]int64` keyed
`[cluster][topic][group][partition]`. -/

/-- The partition → offset leaf map. -/
abbrev PartitionOffsets := List (Int × Int)

/-- The group → partition map level. -/
abbrev GroupOffsets := List (String × PartitionOffsets)

/-- The topic → group map level. -/
abbrev TopicOffsets := List (String × GroupOffsets)

/-- The full `ackedOffsets` structure, keyed by cluster at the top. -/
abbrev AckedOffsets := List (String × TopicOffsets)

/-- One element of an `ackOffsets` batch sent on the ack channel. -/
structure AckOffset where
  cluster : String
  topic : String
  group : String
  partition : Int
  offset : Int
deriving DecidableEq, Repr

/-- Read `ackedOffsets[c][t]` through the Go nil-map chain. -/
def lookupTopicMap (m : AckedOffsets) (c t : String) : Option GroupOffsets :=
  (alLookup m c).bind (fun tm => alLookup tm t)

/-- Read `ackedOffsets[c][t][g]` through the Go nil-map chain. -/
def lookupGroupMap (m : AckedOffsets) (c t g : String) : Option PartitionOffsets :=
  (lookupTopicMap m c t).bind (fun gm => alLookup gm g)

/-- Read the slot `ackedOffsets[c][t][g][p]` through the Go nil-map chain. -/
def lookupSlot (m : AckedOffsets) (c t g : String) (p : Int) : Option Int :=
  (lookupGroupMap m c t g).bind (fun pm => alLookup pm p)

/-- The Go assignment `ackedOffsets[c][t] = v`; `none` embeds the runtime
panic raised when `ackedOffsets[c]` is a nil map. -/
def setTopicMap (m : AckedOffsets) (c t : String) (v : GroupOffsets) :
    Option AckedOffsets :=
  match alLookup m c with
  | none => none
  | some tm => some (alInsert m c (alInsert tm t v))

/-- The Go assignment `ackedOffsets[c][t][g] = v`; `none` embeds the runtime
panic raised when an intermediate map is nil. -/
def setGroupMap (m : AckedOffsets) (c t g : String) (v : PartitionOffsets) :
    Option AckedOffsets :=
  match alLookup m c with
  | none => none
  | some tm =>
    match alLookup tm t with
    | none => none
    | some gm => some (alInsert m c (alInsert tm t (alInsert gm g v)))

/-- The Go assignment `ackedOffsets[c][t][g][p] = o`; `none` embeds the
runtime panic raised when an intermediate map is nil. -/
def setSlot (m : AckedOffsets) (c t g : String) (p o : Int) : Option AckedOffsets :=
  match alLookup m c with
  | none => none
  | some tm =>
    match alLookup tm t with
    | none => none
    | some gm =>
      match alLookup gm g with
      | none => none
      | some pm =>
        some (alInsert m c (alInsert tm t (alInsert gm g (alInsert pm p o))))

/-- One iteration of the per-ack loop body of `subServer.ackCommitter`,
transcribed statement by statement from the source.  Note that the third
presence check reads `ackedOffsets[ack.topic][ack.group]` — the top level is
indexed by the ack's topic, exactly as the source does — while the map it
initializes (and the final assignment) use the `[cluster][topic][group]`
path. -/
def processAck (m : AckedOffsets) (a : AckOffset) : Option AckedOffsets :=
  let m1 := if (alLookup m a.cluster).isSome then m else alInsert m a.cluster []
  let step2 : Option AckedOffsets :=
    if (lookupTopicMap m1 a.cluster a.topic).isSome then some m1
    else setTopicMap m1 a.cluster a.topic []
  step2.bind (fun m2 =>
    let step3 : Option AckedOffsets :=
      if (lookupTopicMap m2 a.topic a.group).isSome then some m2
      else setGroupMap m2 a.cluster a.topic a.group []
    step3.bind (fun m3 =>
      setSlot m3 a.cluster a.topic a.group a.partition a.offset))

/-- The `for _, ack := range acks` loop of `subServer.ackCommitter` over one
batch received from the ack channel. -/
def processBatch (m : AckedOffsets) (acks : List AckOffset) : Option AckedOffsets :=
  acks.foldl (fun acc a => acc.bind (fun mm => processAck mm a)) (some m)

/-! ## Offset flush (`subServer.commitOffsets`) -/

/-- Outcome of one `zkcluster.ResetConsumerGroupOffset` call: success, the
`zk.ErrNoNode` error, or any other error. -/
inductive CommitResult
  | ok
  | errNoNode
  | errOther
deriving DecidableEq, Repr

/-- A record of one `ResetConsumerGroupOffset` call made during a flush:
which cluster's zkcluster was used and the topic/group/partition/offset
arguments passed. -/
structure CommitCall where
  cluster : String
  topic : String
  group : String
  partition : Int
  offset : Int
deriving DecidableEq, Repr

/-- The coordination store, as an oracle: the result of
`ZkCluster(cluster).ResetConsumerGroupOffset(topic, group, partition, offset)`. -/
abbrev ResetOracle := String → String → String → Int → Int → CommitResult

/-- The innermost body of `subServer.commitOffsets` for a single slot:
skip the sentinel −1, otherwise call the coord store and compute the slot's
new value (−1 on success or on `zk.ErrNoNode`; retained otherwise).
Returns the new slot value and the calls made (none or exactly one). -/
def commitSlot (oracle : ResetOracle) (c t g : String) (p o : Int) :
    Int × List CommitCall :=
  if o = -1 then (o, [])
  else
    match oracle c t g p o with
    | CommitResult.ok => (-1, [⟨c, t, g, p, o⟩])
    | CommitResult.errNoNode => (-1, [⟨c, t, g, p, o⟩])
    | CommitResult.errOther => (o, [⟨c, t, g, p, o⟩])

/-- The `for partition, offset := range partitionOffset` loop of
`commitOffsets`.  The source updates only the currently visited key of the
map it ranges over, so the net effect is a per-entry map. -/
def commitPartitions (oracle : ResetOracle) (c t g : String) :
    PartitionOffsets → PartitionOffsets × List CommitCall
  | [] => ([], [])
  | (p, o) :: rest =>
    let r := commitSlot oracle c t g p o
    let rr := commitPartitions oracle c t g rest
    ((p, r.1) :: rr.1, r.2 ++ rr.2)

/-- The `for group, partitionOffset := range groupPartition` loop. -/
def commitGroups (oracle : ResetOracle) (c t : String) :
    GroupOffsets → GroupOffsets × List CommitCall
  | [] => ([], [])
  | (g, pm) :: rest =>
    let r := commitPartitions oracle c t g pm
    let rr := commitGroups oracle c t rest
    ((g, r.1) :: rr.1, r.2 ++ rr.2)

/-- The `for topic, groupPartition := range clusterTopic` loop. -/
def commitTopics (oracle : ResetOracle) (c : String) :
    TopicOffsets → TopicOffsets × List CommitCall
  | [] => ([], [])
  | (t, gm) :: rest =>
    let r := commitGroups oracle c t gm
    let rr := commitTopics oracle c rest
    ((t, r.1) :: rr.1, r.2 ++ rr.2)

/-- `subServer.commitOffsets`: the full four-level iteration, returning the
updated `ackedOffsets` and the list of coord-store calls made. -/
def commitOffsets (oracle : ResetOracle) :
    AckedOffsets → AckedOffsets × List CommitCall
  | [] => ([], [])
  | (c, tm) :: rest =>
    let r := commitTopics oracle c tm
    let rr := commitOffsets oracle rest
    ((c, r.1) :: rr.1, r.2 ++ rr.2)

/-- Number of calls in a flush trace addressed to one
cluster/topic/group/partition slot. -/
def countCalls : List CommitCall → String → String → String → Int → Nat
  | [], _, _, _, _ => 0
  | cc :: rest, c, t, g, p =>
    (if cc.cluster = c ∧ cc.topic = t ∧ cc.group = g ∧ cc.partition = p then 1 else 0)
      + countCalls rest c t g p

/-- Keys of an association list are pairwise distinct (every Go map
satisfies this). -/
def keysNodup {α β : Type} [DecidableEq α] (m : List (α × β)) : Prop :=
  (m.map Prod.fst).Nodup

/-- Well-formedness of an `ackedOffsets` value: distinct keys at every
level, as holds for any value built out of Go maps. -/
def WFAcked (m : AckedOffsets) : Prop :=
  keysNodup m ∧ ∀ cp ∈ m, keysNodup cp.2 ∧ ∀ tp ∈ cp.2, keysNodup tp.2 ∧
    ∀ gp ∈ tp.2, keysNodup gp.2

/-! ## Ack committer shutdown (the `shutdownCh` branch of `ackCommitter`)

The committer side is transcribed from the source: the `shutdownOnce.Do`
body decrements `ackShutdown` once, busy-waits until the counter is ≤ −1,
and only then closes the ack channel; the `!ok` receive branch after the
closed channel is drained runs one final `commitOffsets` and returns.  The
ack-producing HTTP handlers are not under src/. -/

/-- Combined state of the committer, the `ackShutdown` counter and the
ack-producing handlers.  `running` counts handlers currently able to send
on the ack channel. -/
structure AckSystem where
  ackShutdown : Int
  running : Nat
  draining : Bool
  ackChClosed : Bool
  finalFlushed : Bool
  exited : Bool
deriving DecidableEq, Repr

/-- State at `subServer` construction: counter 0, nothing running. -/
def ackSystemInit : AckSystem :=
  { ackShutdown := 0, running := 0, draining := false, ackChClosed := false,
    finalFlushed := false, exited := false }

/-- Interleaved steps of the handlers and the committer.

`handlerStart` and `handlerExit` are Modelled from the spec: the
ack-producing handlers are not under src/; per §4.6 each running handler
holds a +1 on the `ackShutdown` counter, released when it exits, and no
handler starts once the committer has atomically marked itself draining.
The three committer steps are transcribed from `ackCommitter`:
`committerDrain` is the one-shot decrement inside `shutdownOnce.Do`,
`committerClose` is `close(this.ackCh)` guarded by the busy-wait condition
`ackShutdown <= -1`, and `committerExit` is the `!ok` branch that flushes
once and returns after the closed channel is drained. -/
inductive AckStep : AckSystem → AckSystem → Prop
  | handlerStart (s : AckSystem) (h : s.draining = false) :
      AckStep s { s with ackShutdown := s.ackShutdown + 1, running := s.running + 1 }
  | handlerExit (s : AckSystem) (h : 1 ≤ s.running) :
      AckStep s { s with ackShutdown := s.ackShutdown - 1, running := s.running - 1 }
  | committerDrain (s : AckSystem) (h : s.draining = false) :
      AckStep s { s with ackShutdown := s.ackShutdown - 1, draining := true }
  | committerClose (s : AckSystem) (h1 : s.draining = true)
      (h2 : s.ackShutdown ≤ -1) (h3 : s.ackChClosed = false) :
      AckStep s { s with ackChClosed := true }
  | committerExit (s : AckSystem) (h : s.ackChClosed = true) :
      AckStep s { s with finalFlushed := true, exited := true }

/-- States reachable from construction by interleaved steps. -/
def AckReachable (s : AckSystem) : Prop :=
  Relation.ReflTransGen AckStep ackSystemInit s

/-- Inductive invariant tying the counter to the handler count and the
drain mark, and recording what must already have happened once the channel
is closed or the committer has exited. -/
def AckInv (s : AckSystem) : Prop :=
  s.ackShutdown = (s.running : Int) - (if s.draining then 1 else 0) ∧
  (s.ackChClosed = true → s.running = 0 ∧ s.draining = true) ∧
  (s.exited = true → s.finalFlushed = true ∧ s.ackChClosed = true)

/-! ## Delayed-job executor (`JobExecutor.handleDueJobs`) -/

/-- One row of the due table, `{job_id, payload, ctime, due_time}`. -/
structure JobItem where
  jobId : Int
  payload : List Nat
  ctime : Int
  dueTime : Int
deriving DecidableEq, Repr

/-- One row of the history (archive) table: the due columns plus
`etime` and `actor_id`. -/
structure HistoryRow where
  jobId : Int
  payload : List Nat
  ctime : Int
  dueTime : Int
  etime : Int
  actorId : String
deriving DecidableEq, Repr

/-- The relational state the handler touches: the due table and the
history table for one topic. -/
structure JobDB where
  due : List JobItem
  history : List HistoryRow
deriving DecidableEq, Repr

/-- External outcomes for one pass of the handler body, as oracles: the
DELETE result (`deleteErr`, `affectedRows`), broker `SyncPub` success,
`hh.Append` success, the archive INSERT success, the reinject INSERT
success, plus `time.Now().Unix()` and the executor's `parentId`. -/
structure HandlerEnv where
  deleteErr : Bool
  affectedRows : Nat
  pubOk : Bool
  hhOk : Bool
  historyInsertOk : Bool
  reinjectOk : Bool
  now : Int
  parentId : String
deriving DecidableEq, Repr

/-- The external statements the handler issues, in order: the DELETE, the
broker publish, the hinted-handoff append, the reinject INSERT and the
history INSERT, each with the arguments the source passes. -/
inductive HandlerAction
  | deleteJob (jobId : Int)
  | syncPub (payload : List Nat)
  | hhAppend (payload : List Nat)
  | reinject (jobId : Int) (payload : List Nat) (ctime dueTime : Int)
  | insertHistory (jobId : Int) (payload : List Nat) (ctime dueTime etime : Int)
      (actorId : String)
deriving DecidableEq, Repr

/-- One iteration of the `case item := <-this.dueJobs` body of
`JobExecutor.handleDueJobs`, transcribed from the source: DELETE errors and
`affectedRows == 0` skip the item; otherwise publish, fall back to the
hinted handoff, reinject when both fail (the reinject Exec result is
discarded), and archive to the history table when delivery succeeded (an
archive INSERT error is only logged).  Returns the new table state and the
list of statements issued. -/
def handleOneJob (env : HandlerEnv) (db : JobDB) (item : JobItem) :
    JobDB × List HandlerAction :=
  if env.deleteErr then (db, [HandlerAction.deleteJob item.jobId])
  else if env.affectedRows = 0 then (db, [HandlerAction.deleteJob item.jobId])
  else
    let db1 : JobDB := { db with due := db.due.filter (fun r => r.jobId ≠ item.jobId) }
    if env.pubOk then
      let acts := [HandlerAction.deleteJob item.jobId,
        HandlerAction.syncPub item.payload,
        HandlerAction.insertHistory item.jobId item.payload item.ctime item.dueTime
          env.now env.parentId]
      if env.historyInsertOk then
        ({ db1 with history := db1.history ++
            [⟨item.jobId, item.payload, item.ctime, item.dueTime, env.now, env.parentId⟩] },
         acts)
      else (db1, acts)
    else if env.hhOk then
      let acts := [HandlerAction.deleteJob item.jobId,
        HandlerAction.syncPub item.payload,
        HandlerAction.hhAppend item.payload,
        HandlerAction.insertHistory item.jobId item.payload item.ctime item.dueTime
          env.now env.parentId]
      if env.historyInsertOk then
        ({ db1 with history := db1.history ++
            [⟨item.jobId, item.payload, item.ctime, item.dueTime, env.now, env.parentId⟩] },
         acts)
      else (db1, acts)
    else
      let acts := [HandlerAction.deleteJob item.jobId,
        HandlerAction.syncPub item.payload,
        HandlerAction.hhAppend item.payload,
        HandlerAction.reinject item.jobId item.payload item.ctime item.dueTime]
      if env.reinjectOk then ({ db1 with due := db1.due ++ [item] }, acts)
      else (db1, acts)

/-! ## Hinted-handoff disk Service (`disk.Service`) -/

/-- A block: `magic` (two bytes), key and value. -/
structure Block where
  magic : Nat × Nat
  key : List Nat
  value : List Nat
deriving DecidableEq, Repr

/-- `currentMagic = [2]byte{0, 0}`. -/
def currentMagic : Nat × Nat := (0, 0)

/-- The `clusterTopic` map key of the Service's queue registry. -/
structure ClusterTopic where
  cluster : String
  topic : String
deriving DecidableEq, Repr

/-- `disk.Service`: the `closed` flag and the queue registry.  A queue is
Modelled from the spec at the precision these claims need: §4.3 Append
writes the block to the per-(cluster,topic) log, so a queue is its list of
appended blocks. -/
structure HHService where
  closed : Bool
  queues : List (ClusterTopic × List Block)
deriving DecidableEq, Repr

/-- `disk.New(cfg)`: an empty registry with `closed: true`. -/
def serviceNew : HHService := { closed := true, queues := [] }

/-- The only Service error these claims mention. -/
inductive HHError
  | errNotOpen
deriving DecidableEq, Repr

/-- `Service.Append`, transcribed from the source: reject with `ErrNotOpen`
while closed, before any queue lookup; otherwise build the block with
`currentMagic`, look the queue up and append, creating the queue first
(`createAndOpenQueue` under the double-checked write lock) when absent. -/
def serviceAppend (s : HHService) (cluster topic : String) (key value : List Nat) :
    HHService × Option HHError :=
  if s.closed then (s, some HHError.errNotOpen)
  else
    let b : Block := { magic := currentMagic, key := key, value := value }
    let ct : ClusterTopic := { cluster := cluster, topic := topic }
    match alLookup s.queues ct with
    | some q => ({ s with queues := alInsert s.queues ct (q ++ [b]) }, none)
    | none => ({ s with queues := alInsert s.queues ct [b] }, none)

/-- The directory scanner behind `loadQueues`, as an oracle: reading one
data dir either fails or yields the (cluster, topic) queues found on disk
together with their not-yet-replayed blocks. -/
abbrev DiskScan := String → Except String (List (ClusterTopic × List Block))

/-- The delivery callback used during replay, as an oracle. -/
abbrev Deliver := ClusterTopic → Block → Bool

/-- What one `FlushInflights` call did: whether the closed-service guard
fired (the error log for a still-open service), whether queue loading
failed, whether the replay work ran, and the replay outcome counts. -/
structure FlushReport where
  loggedOpenError : Bool
  loadError : Bool
  replayed : Bool
  deliveredBlocks : Nat
  failedBlocks : Nat
deriving DecidableEq, Repr

/-- The `for _, dir := range this.cfg.Dirs { loadQueues(dir, false) }` loop
of `FlushInflights`: each discovered (cluster, topic) is installed in the
registry via `createAndOpenQueue` (which overwrites any existing entry); a
scan error stops the loop (the source logs it and returns). -/
def loadQueuesFromDirs (scan : DiskScan) (s : HHService) :
    List String → HHService × Bool
  | [] => (s, false)
  | d :: rest =>
    match scan d with
    | Except.error _ => (s, true)
    | Except.ok qs =>
      let qs' := qs.foldl
        (fun acc (q : ClusterTopic × List Block) => alInsert acc q.1 q.2) s.queues
      let s' : HHService := { s with queues := qs' }
      loadQueuesFromDirs scan s' rest

/-- Replay of one queue's blocks through the delivery callback, counting
(delivered, failed).  Modelled from the spec: §4.3's `FlushInflights` mode
replays all remaining blocks synchronously and reports errors on a channel
(the per-queue replay code is not under src/). -/
def replayBlocks (deliver : Deliver) (ct : ClusterTopic) (bs : List Block) : Nat × Nat :=
  bs.foldl (fun acc b => if deliver ct b then (acc.1 + 1, acc.2) else (acc.1, acc.2 + 1))
    (0, 0)

/-- `Service.FlushInflights`, transcribed from the source: if the service
is not closed, log an error and return at once (no loading, no replay);
otherwise load the queues of every data dir (a load error logs and
returns), then replay every queue and drain the error channel. -/
def serviceFlushInflights (s : HHService) (dirs : List String) (scan : DiskScan)
    (deliver : Deliver) : HHService × FlushReport :=
  if s.closed = false then
    (s, { loggedOpenError := true, loadError := false, replayed := false,
          deliveredBlocks := 0, failedBlocks := 0 })
  else
    match loadQueuesFromDirs scan s dirs with
    | (s', true) =>
      (s', { loggedOpenError := false, loadError := true, replayed := false,
             deliveredBlocks := 0, failedBlocks := 0 })
    | (s', false) =>
      let counts := s'.queues.foldl
        (fun acc q => ((replayBlocks deliver q.1 q.2).1 + acc.1,
                       (replayBlocks deliver q.1 q.2).2 + acc.2)) (0, 0)
      (s', { loggedOpenError := false, loadError := false, replayed := true,
             deliveredBlocks := counts.1, failedBlocks := counts.2 })

/-! ## Idle-connection tracker (`subServer.connStateHandler`) -/

/-- `net/http.ConnState` values the handler switches on. -/
inductive HttpConnState
  | stateNew
  | stateActive
  | stateIdle
  | stateHijacked
  | stateClosed
deriving DecidableEq, Repr

/-- The sub-server state the ConnState callback touches.  Connections are
identified by numbers; `idleConns` is the `map[net.Conn]struct` idle set
(Go map semantics: adding an existing key is a no-op), `closedByServer`
records the connections on which the handler itself called `Close()`, and
`closedConnCh` the remote addresses emitted on the closed-conn channel. -/
structure SubConnTracker where
  idleConns : List Nat
  activeConnN : Int
  inflight : Int
  shutdownBegun : Bool
  closedByServer : List Nat
  closedConnCh : List Nat
deriving DecidableEq, Repr

/-- `delete(this.idleConns, c)`. -/
def idleRemove (l : List Nat) (c : Nat) : List Nat := l.filter (fun x => x ≠ c)

/-- `this.idleConns[c] = struct` — a set add. -/
def idleAdd (l : List Nat) (c : Nat) : List Nat := if c ∈ l then l else l ++ [c]

/-- `subServer.connStateHandler`, transcribed case by case from the source.
The `StateIdle` branch is the `select` on `this.gw.shutdownCh`: once the
shutdown channel is closed the receive is always ready, so the connection
is closed and removed; before that only `default` is ready, so the
connection is added to the idle set. -/
def connStateHandler (s : SubConnTracker) (c : Nat) (cs : HttpConnState) :
    SubConnTracker :=
  match cs with
  | HttpConnState.stateNew =>
    { s with inflight := s.inflight + 1, activeConnN := s.activeConnN + 1 }
  | HttpConnState.stateActive =>
    { s with idleConns := idleRemove s.idleConns c }
  | HttpConnState.stateIdle =>
    if s.shutdownBegun then
      { s with closedByServer := s.closedByServer ++ [c],
               idleConns := idleRemove s.idleConns c }
    else
      { s with idleConns := idleAdd s.idleConns c }
  | HttpConnState.stateHijacked =>
    { s with idleConns := idleRemove s.idleConns c,
             activeConnN := s.activeConnN - 1 }
  | HttpConnState.stateClosed =>
    { s with closedConnCh := s.closedConnCh ++ [c],
             inflight := s.inflight - 1,
             activeConnN := s.activeConnN - 1,
             idleConns := idleRemove s.idleConns c }

/-! ## Theorems -/

/-- Looking a key up after an in-place insert of the same key yields the
inserted value. -/
theorem alLookup_alInsert_self {α β : Type} [DecidableEq α] (m : List (α × β))
    (k : α) (v : β) : alLookup (alInsert m k v) k = some v := by
  induction m with
  | nil => simp [alInsert, alLookup]
  | cons hd tl ih =>
    obtain ⟨k', v'⟩ := hd
    by_cases h : k = k' <;> simp [alInsert, alLookup, h, ih]

/-- Looking a different key up after an in-place insert is unchanged. -/
theorem alLookup_alInsert_ne {α β : Type} [DecidableEq α] (m : List (α × β))
    (k k' : α) (v : β) (h : k' ≠ k) :
    alLookup (alInsert m k v) k' = alLookup m k' := by
  induction m with
  | nil => simp [alInsert, alLookup, h]
  | cons hd tl ih =>
    obtain ⟨k₀, v₀⟩ := hd
    by_cases hk : k = k₀
    · subst hk
      simp [alInsert, alLookup, h]
    · by_cases hk' : k' = k₀ <;> simp [alInsert, alLookup, hk, hk', ih]

/-- A key absent from the key list looks up to none. -/
theorem alLookup_eq_none_of_not_mem {α β : Type} [DecidableEq α]
    (m : List (α × β)) (k : α) (h : k ∉ m.map Prod.fst) : alLookup m k = none := by
  induction m with
  | nil => simp [alLookup]
  | cons hd tl ih =>
    obtain ⟨k', v'⟩ := hd
    simp only [List.map_cons, List.mem_cons] at h
    push_neg at h
    simp [alLookup, h.1, ih h.2]

/-- A successful lookup is a membership. -/
theorem mem_of_alLookup_eq_some {α β : Type} [DecidableEq α]
    (m : List (α × β)) (k : α) (v : β) (h : alLookup m k = some v) : (k, v) ∈ m := by
  induction m with
  | nil => simp [alLookup] at h
  | cons hd tl ih =>
    obtain ⟨k', v'⟩ := hd
    by_cases hk : k = k'
    · subst hk
      simp [alLookup] at h
      simp [h]
    · simp [alLookup, hk] at h
      exact List.mem_cons_of_mem _ (ih h)

/-- C5.  A JobItem whose DELETE reports `affectedRows == 0` is skipped
silently: the handler issues no broker publish, no HHQ append, no reinject
and no history insert — the only statement issued is the DELETE itself and
the table state is unchanged. -/
theorem handleDueJobs_skip_on_zero_affected (env : HandlerEnv) (db : JobDB)
    (item : JobItem) (hde : env.deleteErr = false) (haf : env.affectedRows = 0) :
    handleOneJob env db item = (db, [HandlerAction.deleteJob item.jobId]) := by
  simp [handleOneJob, hde, haf]

/-- Witness for C5 at a concrete item and environment. -/
theorem handleDueJobs_skip_on_zero_affected_witness :
    handleOneJob ⟨false, 0, true, true, true, true, 300, "x"⟩ ⟨[], []⟩ ⟨7, [1, 2], 100, 200⟩ =
      (⟨[], []⟩, [HandlerAction.deleteJob 7]) :=
  handleDueJobs_skip_on_zero_affected ⟨false, 0, true, true, true, true, 300, "x"⟩
    ⟨[], []⟩ ⟨7, [1, 2], 100, 200⟩ rfl rfl

/-- C6.  When the broker publish fails and the HHQ append also fails, the
handler issues exactly the DELETE, the publish, the HHQ append and then the
reinject INSERT with the item's original job_id, payload, ctime and
due_time; the history table is untouched, and when the reinject INSERT
succeeds the original row is back in the due table. -/
theorem handleDueJobs_reinject_on_total_failure (env : HandlerEnv) (db : JobDB)
    (item : JobItem) (hde : env.deleteErr = false) (haf : env.affectedRows ≠ 0)
    (hpub : env.pubOk = false) (hhh : env.hhOk = false) :
    (handleOneJob env db item).2 =
      [HandlerAction.deleteJob item.jobId, HandlerAction.syncPub item.payload,
       HandlerAction.hhAppend item.payload,
       HandlerAction.reinject item.jobId item.payload item.ctime item.dueTime] ∧
    (handleOneJob env db item).1.history = db.history ∧
    (env.reinjectOk = true → item ∈ (handleOneJob env db item).1.due) := by
  refine ⟨?_, ?_, ?_⟩
  · rcases hrj : env.reinjectOk <;> simp [handleOneJob, hde, haf, hpub, hhh, hrj]
  · rcases hrj : env.reinjectOk <;> simp [handleOneJob, hde, haf, hpub, hhh, hrj]
  · intro hrj
    simp [handleOneJob, hde, haf, hpub, hhh, hrj]

/-- Witness for C6 at a concrete item and environment. -/
theorem handleDueJobs_reinject_on_total_failure_witness :
    (handleOneJob ⟨false, 1, false, false, true, true, 300, "x"⟩
        ⟨[⟨7, [1], 100, 200⟩], []⟩ ⟨7, [1], 100, 200⟩).2 =
      [HandlerAction.deleteJob 7, HandlerAction.syncPub [1],
       HandlerAction.hhAppend [1], HandlerAction.reinject 7 [1] 100 200] ∧
    (handleOneJob ⟨false, 1, false, false, true, true, 300, "x"⟩
        ⟨[⟨7, [1], 100, 200⟩], []⟩ ⟨7, [1], 100, 200⟩).1.history = [] ∧
    (⟨7, [1], 100, 200⟩ : JobItem) ∈
      (handleOneJob ⟨false, 1, false, false, true, true, 300, "x"⟩
        ⟨[⟨7, [1], 100, 200⟩], []⟩ ⟨7, [1], 100, 200⟩).1.due := by
  have h := handleDueJobs_reinject_on_total_failure
    ⟨false, 1, false, false, true, true, 300, "x"⟩ ⟨[⟨7, [1], 100, 200⟩], []⟩
    ⟨7, [1], 100, 200⟩ rfl (by decide) rfl rfl
  exact ⟨h.1, h.2.1, h.2.2 rfl⟩

/-- C2 counterexample.  A processed due job (delete succeeded with
affectedRows = 1) whose broker publish succeeds but whose history INSERT
fails ends up in neither table: the due table and the history table are
both empty afterwards, so the row is lost even though the handler did
attempt the archive INSERT. -/
theorem handleDueJobs_archive_failure_loses_row :
    handleOneJob ⟨false, 1, true, false, false, true, 300, "p"⟩
        ⟨[⟨7, [1], 100, 200⟩], []⟩ ⟨7, [1], 100, 200⟩ =
      (⟨[], []⟩,
       [HandlerAction.deleteJob 7, HandlerAction.syncPub [1],
        HandlerAction.insertHistory 7 [1] 100 200 300 "p"]) := by
  decide

/-- C2 (amended).  For every due job the executor processes (delete
succeeds with affectedRows > 0), regardless of whether the broker publish
and the HHQ append succeed or fail, provided the terminal INSERT the
handler issues succeeds (the history INSERT when delivery succeeded, the
reinject INSERT when both delivery paths failed), afterwards either a
history row for the job_id exists or a row for the job_id is present in
the due table. -/
theorem handleDueJobs_at_least_once (env : HandlerEnv) (db : JobDB) (item : JobItem)
    (hde : env.deleteErr = false) (haf : env.affectedRows ≠ 0)
    (hhi : env.historyInsertOk = true) (hrj : env.reinjectOk = true) :
    (∃ h ∈ (handleOneJob env db item).1.history, h.jobId = item.jobId) ∨
    (∃ r ∈ (handleOneJob env db item).1.due, r.jobId = item.jobId) := by
  by_cases hp : env.pubOk = true
  · left
    refine ⟨⟨item.jobId, item.payload, item.ctime, item.dueTime, env.now, env.parentId⟩,
      ?_, rfl⟩
    simp [handleOneJob, hde, haf, hp, hhi]
  · replace hp : env.pubOk = false := by
      cases h : env.pubOk
      · rfl
      · exact absurd h hp
    by_cases hh : env.hhOk = true
    · left
      refine ⟨⟨item.jobId, item.payload, item.ctime, item.dueTime, env.now, env.parentId⟩,
        ?_, rfl⟩
      simp [handleOneJob, hde, haf, hp, hh, hhi]
    · replace hh : env.hhOk = false := by
        cases h : env.hhOk
        · rfl
        · exact absurd h hh
      right
      refine ⟨item, ?_, rfl⟩
      simp [handleOneJob, hde, haf, hp, hh, hrj]

/-- Witness for the amended C2 at a concrete item and environment. -/
theorem handleDueJobs_at_least_once_witness :
    (∃ h ∈ (handleOneJob ⟨false, 1, false, false, true, true, 300, "p"⟩
        ⟨[⟨7, [1], 100, 200⟩], []⟩ ⟨7, [1], 100, 200⟩).1.history, h.jobId = 7) ∨
    (∃ r ∈ (handleOneJob ⟨false, 1, false, false, true, true, 300, "p"⟩
        ⟨[⟨7, [1], 100, 200⟩], []⟩ ⟨7, [1], 100, 200⟩).1.due, r.jobId = 7) :=
  handleDueJobs_at_least_once ⟨false, 1, false, false, true, true, 300, "p"⟩
    ⟨[⟨7, [1], 100, 200⟩], []⟩ ⟨7, [1], 100, 200⟩ rfl (by decide) rfl rfl

/-- C8.  While the Service is closed, Append returns ErrNotOpen and leaves
the queue registry untouched: no queue is looked up or created and no
block is written. -/
theorem append_closed_returns_errNotOpen (s : HHService) (cluster topic : String)
    (key value : List Nat) (h : s.closed = true) :
    serviceAppend s cluster topic key value = (s, some HHError.errNotOpen) := by
  simp [serviceAppend, h]

/-- Witness for C8 on the freshly constructed service. -/
theorem append_closed_returns_errNotOpen_witness :
    serviceAppend serviceNew "c1" "t1" [] [104, 105] =
      (serviceNew, some HHError.errNotOpen) :=
  append_closed_returns_errNotOpen serviceNew "c1" "t1" [] [104, 105] rfl

/-- C7.  FlushInflights on an open service (closed = false) logs an error
and returns immediately, with the service state unchanged and neither the
queue loading nor the replay performed; conversely the replay work only
ever runs when the service is closed. -/
theorem flushInflights_rejected_on_open_service (s : HHService) (dirs : List String)
    (scan : DiskScan) (deliver : Deliver) :
    (s.closed = false →
      serviceFlushInflights s dirs scan deliver =
        (s, { loggedOpenError := true, loadError := false, replayed := false,
              deliveredBlocks := 0, failedBlocks := 0 })) ∧
    ((serviceFlushInflights s dirs scan deliver).2.replayed = true →
      s.closed = true) := by
  constructor
  · intro h
    simp [serviceFlushInflights, h]
  · intro hrep
    cases hc : s.closed
    · simp [serviceFlushInflights, hc] at hrep
    · rfl

/-- Witness for C7 on a concrete open service. -/
theorem flushInflights_rejected_on_open_service_witness :
    serviceFlushInflights ⟨false, []⟩ ["dir1"] (fun _ => Except.ok [])
        (fun _ _ => true) =
      (⟨false, []⟩, { loggedOpenError := true, loadError := false, replayed := false,
                      deliveredBlocks := 0, failedBlocks := 0 }) :=
  (flushInflights_rejected_on_open_service ⟨false, []⟩ ["dir1"]
    (fun _ => Except.ok []) (fun _ _ => true)).1 rfl

/-- C10.  A Service returned by New is closed: every Append before the
first Start returns ErrNotOpen (with the registry untouched), while
FlushInflights passes its closed-service guard (the open-service error
branch is not taken), enabling the offline flush-inflights mode used by
the gateway's FlushHintedOffOnly path. -/
theorem serviceNew_starts_closed :
    serviceNew.closed = true ∧
    (∀ cluster topic key value,
      serviceAppend serviceNew cluster topic key value =
        (serviceNew, some HHError.errNotOpen)) ∧
    (∀ dirs scan deliver,
      (serviceFlushInflights serviceNew dirs scan deliver).2.loggedOpenError = false) := by
  refine ⟨rfl, ?_, ?_⟩
  · intro cluster topic key value
    simp [serviceAppend, serviceNew]
  · intro dirs scan deliver
    have hc : serviceNew.closed = true := rfl
    rcases hld : loadQueuesFromDirs scan serviceNew dirs with ⟨s', b⟩
    cases b <;> simp [serviceFlushInflights, hc, hld]

/-- C9.  The IDLE branch of the ConnState callback: before shutdown the
connection joins the idle set; once shutdown has begun the connection is
closed by the server and is not added — and in fact after shutdown no
ConnState event ever adds a connection to the idle set. -/
theorem connStateHandler_idle_shutdown (s : SubConnTracker) (c : Nat) :
    (s.shutdownBegun = false →
      connStateHandler s c HttpConnState.stateIdle =
        { s with idleConns := idleAdd s.idleConns c } ∧
      c ∈ (connStateHandler s c HttpConnState.stateIdle).idleConns) ∧
    (s.shutdownBegun = true →
      c ∈ (connStateHandler s c HttpConnState.stateIdle).closedByServer ∧
      c ∉ (connStateHandler s c HttpConnState.stateIdle).idleConns) ∧
    (s.shutdownBegun = true → ∀ (cs : HttpConnState) (x : Nat),
      x ∈ (connStateHandler s c cs).idleConns → x ∈ s.idleConns) := by
  refine ⟨?_, ?_, ?_⟩
  · intro h
    constructor
    · simp [connStateHandler, h]
    · simp only [connStateHandler, h, if_neg Bool.false_ne_true]
      by_cases hc : c ∈ s.idleConns <;> simp [idleAdd, hc]
  · intro h
    constructor
    · simp [connStateHandler, h]
    · simp [connStateHandler, h, idleRemove, List.mem_filter]
  · intro h cs x
    cases cs <;> simp [connStateHandler, h, idleRemove, List.mem_filter] <;>
      intro hx _ <;> exact hx

/-- Witness for C9 at a concrete tracker state and connection: with
shutdown begun, an IDLE event closes connection 5 instead of adding it. -/
theorem connStateHandler_idle_shutdown_witness :
    5 ∈ (connStateHandler ⟨[9], 1, 1, true, [], []⟩ 5 HttpConnState.stateIdle).closedByServer ∧
    (connStateHandler ⟨[9], 1, 1, true, [], []⟩ 5 HttpConnState.stateIdle).idleConns = [9] :=
  ⟨((connStateHandler_idle_shutdown ⟨[9], 1, 1, true, [], []⟩ 5).2.1 rfl).1, rfl⟩

/-- C1 is a code bug: the per-ack loop of ackCommitter checks presence of
ackedOffsets[ack.topic][ack.group] — indexing the cluster level by the
ack's topic — before initializing ackedOffsets[cluster][topic][group].
Processing a batch of two acks for cluster "c", topic "t", group "g"
(partitions 0 and 1) from an empty mapping therefore re-makes the group
map while handling the second ack, erasing the already-recorded slot for
partition 0 — exactly the key-path clobbering the claim rules out; and if
a cluster literally named "t" with a topic "g" already exists, the presence
check passes spuriously and the final assignment hits a nil map (a Go
runtime panic, embedded as none). -/
theorem ackCommitter_clobbers_sibling_slot :
    processBatch [] [⟨"c", "t", "g", 0, 5⟩] =
      some [("c", [("t", [("g", [(0, 5)])])])] ∧
    processBatch [] [⟨"c", "t", "g", 0, 5⟩, ⟨"c", "t", "g", 1, 9⟩] =
      some [("c", [("t", [("g", [(1, 9)])])])] ∧
    lookupSlot [("c", [("t", [("g", [(1, 9)])])])] "c" "t" "g" 0 = none ∧
    lookupSlot [("c", [("t", [("g", [(1, 9)])])])] "c" "t" "g" 1 = some 9 ∧
    processBatch [("t", [("g", [])])] [⟨"c", "t", "g", 0, 5⟩] = none :=
  ⟨rfl, rfl, rfl, rfl, rfl⟩

/-- Every interleaved step preserves the ack-shutdown invariant. -/
theorem ackStep_inv {s s' : AckSystem} (h : AckStep s s') (hi : AckInv s) : AckInv s' := by
  obtain ⟨h1, h2, h3⟩ := hi
  cases h with
  | handlerStart hdr =>
    refine ⟨?_, ?_, ?_⟩
    · show s.ackShutdown + 1 =
        ((s.running + 1 : Nat) : Int) - if s.draining = true then 1 else 0
      rw [hdr] at h1 ⊢
      simp at h1 ⊢
      omega
    · show s.ackChClosed = true → s.running + 1 = 0 ∧ s.draining = true
      intro hcl
      have h0 := h2 hcl
      simp [h0.2] at hdr
    · exact h3
  | handlerExit hrun =>
    refine ⟨?_, ?_, ?_⟩
    · show s.ackShutdown - 1 =
        ((s.running - 1 : Nat) : Int) - if s.draining = true then 1 else 0
      rcases hd : s.draining <;> simp [hd] at h1 ⊢ <;> omega
    · show s.ackChClosed = true → s.running - 1 = 0 ∧ s.draining = true
      intro hcl
      have h0 := h2 hcl
      exact ⟨by omega, h0.2⟩
    · exact h3
  | committerDrain hdr =>
    refine ⟨?_, ?_, ?_⟩
    · show s.ackShutdown - 1 = (s.running : Int) - if true = true then 1 else 0
      rw [hdr] at h1
      simp at h1 ⊢
      omega
    · show s.ackChClosed = true → s.running = 0 ∧ true = true
      intro hcl
      exact ⟨(h2 hcl).1, rfl⟩
    · exact fun hex => (h3 hex)
  | committerClose hd1 hd2 hd3 =>
    refine ⟨h1, ?_, ?_⟩
    · show true = true → s.running = 0 ∧ s.draining = true
      intro _
      refine ⟨?_, hd1⟩
      rw [h1, hd1] at hd2
      simp at hd2
      omega
    · show s.exited = true → s.finalFlushed = true ∧ true = true
      intro hex
      exact ⟨(h3 hex).1, rfl⟩
  | committerExit hcl =>
    refine ⟨h1, h2, ?_⟩
    · show true = true → true = true ∧ s.ackChClosed = true
      intro _
      exact ⟨rfl, hcl⟩

/-- The invariant holds in every reachable state. -/
theorem ackReachable_inv {s : AckSystem} (h : AckReachable s) : AckInv s := by
  induction h with
  | refl =>
    refine ⟨rfl, ?_, ?_⟩ <;> intro h <;> exact absurd h (by decide)
  | tail _ hstep ih => exact ackStep_inv hstep ih

/-- C4.  In every reachable state of the ack shutdown protocol, the ack
channel is only ever closed after the committer has marked itself draining
and every ack-producing handler has exited (so a send-after-close fault is
impossible), and the committer only exits after the closed channel was
drained and the final flush has run. -/
theorem ackCommitter_close_safety (s : AckSystem) (h : AckReachable s) :
    (s.ackChClosed = true → s.running = 0 ∧ s.draining = true) ∧
    (s.exited = true → s.finalFlushed = true ∧ s.ackChClosed = true) :=
  ⟨(ackReachable_inv h).2.1, (ackReachable_inv h).2.2⟩

/-- Witness for C4: the drain–close–exit run of the committer with no
handler running reaches a closed-and-exited state, for which the theorem
yields the safety facts. -/
theorem ackCommitter_close_safety_witness :
    ({ ackShutdown := -1, running := 0, draining := true, ackChClosed := true,
       finalFlushed := true, exited := true } : AckSystem).running = 0 ∧
    ({ ackShutdown := -1, running := 0, draining := true, ackChClosed := true,
       finalFlushed := true, exited := true } : AckSystem).draining = true := by
  have h1 : AckStep ackSystemInit
      { ackShutdown := -1, running := 0, draining := true, ackChClosed := false,
        finalFlushed := false, exited := false } :=
    AckStep.committerDrain ackSystemInit rfl
  have h2 : AckStep
      { ackShutdown := -1, running := 0, draining := true, ackChClosed := false,
        finalFlushed := false, exited := false }
      { ackShutdown := -1, running := 0, draining := true, ackChClosed := true,
        finalFlushed := false, exited := false } :=
    AckStep.committerClose _ rfl (by decide) rfl
  have h3 : AckStep
      { ackShutdown := -1, running := 0, draining := true, ackChClosed := true,
        finalFlushed := false, exited := false }
      { ackShutdown := -1, running := 0, draining := true, ackChClosed := true,
        finalFlushed := true, exited := true } :=
    AckStep.committerExit _ rfl
  have hreach : AckReachable
      { ackShutdown := -1, running := 0, draining := true, ackChClosed := true,
        finalFlushed := true, exited := true } :=
    Relation.ReflTransGen.tail (Relation.ReflTransGen.tail
      (Relation.ReflTransGen.single h1) h2) h3
  exact (ackCommitter_close_safety _ hreach).1 rfl

/-- The new value of a slot after commitSlot, as one conditional. -/
theorem commitSlot_fst (oracle : ResetOracle) (c t g : String) (p o : Int) :
    (commitSlot oracle c t g p o).1 =
      if o = -1 then -1
      else if oracle c t g p o = CommitResult.errOther then o else -1 := by
  by_cases h : o = -1
  · simp [commitSlot, h]
  · simp only [commitSlot, h, if_false, if_neg h]
    cases horacle : oracle c t g p o <;> simp [horacle]

/-- The calls made by commitSlot: none for the sentinel, exactly one
otherwise. -/
theorem commitSlot_calls (oracle : ResetOracle) (c t g : String) (p o : Int) :
    (commitSlot oracle c t g p o).2 = if o = -1 then [] else [⟨c, t, g, p, o⟩] := by
  by_cases h : o = -1
  · simp [commitSlot, h]
  · simp only [commitSlot, h, if_false, if_neg h]
    cases horacle : oracle c t g p o <;> simp

/-- countCalls distributes over list append. -/
theorem countCalls_append (l1 l2 : List CommitCall) (c t g : String) (p : Int) :
    countCalls (l1 ++ l2) c t g p = countCalls l1 c t g p + countCalls l2 c t g p := by
  induction l1 with
  | nil => simp [countCalls]
  | cons hd tl ih => simp [countCalls, ih, Nat.add_assoc]

/-- A trace with no call addressed to the slot counts zero. -/
theorem countCalls_zero (l : List CommitCall) (c t g : String) (p : Int)
    (h : ∀ cc ∈ l, ¬(cc.cluster = c ∧ cc.topic = t ∧ cc.group = g ∧ cc.partition = p)) :
    countCalls l c t g p = 0 := by
  induction l with
  | nil => rfl
  | cons hd tl ih =>
    have h1 := h hd (List.mem_cons_self _ _)
    have h2 := ih (fun cc hcc => h cc (List.mem_cons_of_mem _ hcc))
    simp [countCalls, if_neg h1, h2]

/-- Per-partition lookup through the partition-level flush loop. -/
theorem commitPartitions_fst_lookup (oracle : ResetOracle) (c t g : String)
    (pm : PartitionOffsets) (p : Int) :
    alLookup (commitPartitions oracle c t g pm).1 p =
      (alLookup pm p).map (fun o => (commitSlot oracle c t g p o).1) := by
  induction pm with
  | nil => simp [commitPartitions, alLookup]
  | cons hd tl ih =>
    obtain ⟨p', o'⟩ := hd
    by_cases hp : p = p' <;> simp [commitPartitions, alLookup, hp, ih]

/-- Every call of the partition-level loop is addressed to the enclosing
cluster/topic/group and a partition key of the map. -/
theorem commitPartitions_calls_path (oracle : ResetOracle) (c t g : String)
    (pm : PartitionOffsets) :
    ∀ cc ∈ (commitPartitions oracle c t g pm).2,
      cc.cluster = c ∧ cc.topic = t ∧ cc.group = g ∧ cc.partition ∈ pm.map Prod.fst := by
  induction pm with
  | nil => intro cc hcc; simp [commitPartitions] at hcc
  | cons hd tl ih =>
    obtain ⟨p', o'⟩ := hd
    intro cc hcc
    simp only [commitPartitions, List.mem_append] at hcc
    rcases hcc with hcc | hcc
    · rw [commitSlot_calls] at hcc
      by_cases ho : o' = -1
      · simp [ho] at hcc
      · simp only [ho, if_false, if_neg ho, List.mem_singleton] at hcc
        subst hcc
        simp
    · obtain ⟨hc, ht, hg, hp⟩ := ih cc hcc
      exact ⟨hc, ht, hg, by simp [hp]⟩

/-- Call count of the partition-level loop at one slot. -/
theorem commitPartitions_calls_count (oracle : ResetOracle) (c t g : String)
    (pm : PartitionOffsets) (hnd : keysNodup pm) (p : Int) :
    countCalls (commitPartitions oracle c t g pm).2 c t g p =
      match alLookup pm p with
      | none => 0
      | some o => if o = -1 then 0 else 1 := by
  induction pm with
  | nil => simp [commitPartitions, countCalls, alLookup]
  | cons hd tl ih =>
    obtain ⟨p', o'⟩ := hd
    have hnd' : keysNodup tl := (List.nodup_cons.mp hnd).2
    have hpmem : p' ∉ tl.map Prod.fst := (List.nodup_cons.mp hnd).1
    simp only [commitPartitions]
    rw [countCalls_append, commitSlot_calls]
    by_cases hp : p = p'
    · subst hp
      have htail : countCalls (commitPartitions oracle c t g tl).2 c t g p = 0 := by
        apply countCalls_zero
        intro cc hcc
        obtain ⟨_, _, _, hmem⟩ := commitPartitions_calls_path oracle c t g tl cc hcc
        intro hcontra
        rw [hcontra.2.2.2] at hmem
        exact hpmem hmem
      by_cases ho : o' = -1
      · simp [ho, countCalls, alLookup, htail]
      · simp [ho, countCalls, alLookup, htail]
    · have hp' : ¬ p' = p := fun h => hp h.symm
      by_cases ho : o' = -1
      · simp [ho, countCalls, alLookup, hp, ih hnd']
      · simp [ho, countCalls, alLookup, hp, hp', ih hnd']

/-- Per-group lookup through the group-level flush loop. -/
theorem commitGroups_fst_lookup (oracle : ResetOracle) (c t : String)
    (gm : GroupOffsets) (g : String) :
    alLookup (commitGroups oracle c t gm).1 g =
      (alLookup gm g).map (fun pm => (commitPartitions oracle c t g pm).1) := by
  induction gm with
  | nil => simp [commitGroups, alLookup]
  | cons hd tl ih =>
    obtain ⟨g', pm⟩ := hd
    by_cases hg : g = g' <;> simp [commitGroups, alLookup, hg, ih]

/-- Every call of the group-level loop is addressed to the enclosing
cluster/topic and a group key of the map. -/
theorem commitGroups_calls_path (oracle : ResetOracle) (c t : String)
    (gm : GroupOffsets) :
    ∀ cc ∈ (commitGroups oracle c t gm).2,
      cc.cluster = c ∧ cc.topic = t ∧ cc.group ∈ gm.map Prod.fst := by
  induction gm with
  | nil => intro cc hcc; simp [commitGroups] at hcc
  | cons hd tl ih =>
    obtain ⟨g', pm⟩ := hd
    intro cc hcc
    simp only [commitGroups, List.mem_append] at hcc
    rcases hcc with hcc | hcc
    · obtain ⟨hc, ht, hg, _⟩ := commitPartitions_calls_path oracle c t g' pm cc hcc
      exact ⟨hc, ht, by simp [hg]⟩
    · obtain ⟨hc, ht, hg⟩ := ih cc hcc
      exact ⟨hc, ht, by simp [hg]⟩

/-- Call count of the group-level loop reduces to the addressed group's
partition map. -/
theorem commitGroups_calls_count (oracle : ResetOracle) (c t : String)
    (gm : GroupOffsets) (hnd : keysNodup gm) (g : String) (p : Int) :
    countCalls (commitGroups oracle c t gm).2 c t g p =
      match alLookup gm g with
      | none => 0
      | some pm => countCalls (commitPartitions oracle c t g pm).2 c t g p := by
  induction gm with
  | nil => simp [commitGroups, countCalls, alLookup]
  | cons hd tl ih =>
    obtain ⟨g', pm⟩ := hd
    have hnd' : keysNodup tl := (List.nodup_cons.mp hnd).2
    have hgmem : g' ∉ tl.map Prod.fst := (List.nodup_cons.mp hnd).1
    simp only [commitGroups]
    rw [countCalls_append]
    by_cases hg : g = g'
    · subst hg
      have htail : countCalls (commitGroups oracle c t tl).2 c t g p = 0 := by
        apply countCalls_zero
        intro cc hcc
        obtain ⟨_, _, hmem⟩ := commitGroups_calls_path oracle c t tl cc hcc
        intro hcontra
        rw [hcontra.2.2.1] at hmem
        exact hgmem hmem
      simp [alLookup, htail]
    · have hhd : countCalls (commitPartitions oracle c t g' pm).2 c t g p = 0 := by
        apply countCalls_zero
        intro cc hcc
        obtain ⟨_, _, hgg, _⟩ := commitPartitions_calls_path oracle c t g' pm cc hcc
        intro hcontra
        exact hg (hcontra.2.2.1.symm.trans hgg)
      simp [alLookup, hg, hhd, ih hnd']

/-- Per-topic lookup through the topic-level flush loop. -/
theorem commitTopics_fst_lookup (oracle : ResetOracle) (c : String)
    (tm : TopicOffsets) (t : String) :
    alLookup (commitTopics oracle c tm).1 t =
      (alLookup tm t).map (fun gm => (commitGroups oracle c t gm).1) := by
  induction tm with
  | nil => simp [commitTopics, alLookup]
  | cons hd tl ih =>
    obtain ⟨t', gm⟩ := hd
    by_cases ht : t = t' <;> simp [commitTopics, alLookup, ht, ih]

/-- Every call of the topic-level loop is addressed to the enclosing
cluster and a topic key of the map. -/
theorem commitTopics_calls_path (oracle : ResetOracle) (c : String)
    (tm : TopicOffsets) :
    ∀ cc ∈ (commitTopics oracle c tm).2,
      cc.cluster = c ∧ cc.topic ∈ tm.map Prod.fst := by
  induction tm with
  | nil => intro cc hcc; simp [commitTopics] at hcc
  | cons hd tl ih =>
    obtain ⟨t', gm⟩ := hd
    intro cc hcc
    simp only [commitTopics, List.mem_append] at hcc
    rcases hcc with hcc | hcc
    · obtain ⟨hc, ht, _⟩ := commitGroups_calls_path oracle c t' gm cc hcc
      exact ⟨hc, by simp [ht]⟩
    · obtain ⟨hc, ht⟩ := ih cc hcc
      exact ⟨hc, by simp [ht]⟩

/-- Call count of the topic-level loop reduces to the addressed topic's
group map. -/
theorem commitTopics_calls_count (oracle : ResetOracle) (c : String)
    (tm : TopicOffsets) (hnd : keysNodup tm) (t g : String) (p : Int) :
    countCalls (commitTopics oracle c tm).2 c t g p =
      match alLookup tm t with
      | none => 0
      | some gm => countCalls (commitGroups oracle c t gm).2 c t g p := by
  induction tm with
  | nil => simp [commitTopics, countCalls, alLookup]
  | cons hd tl ih =>
    obtain ⟨t', gm⟩ := hd
    have hnd' : keysNodup tl := (List.nodup_cons.mp hnd).2
    have htmem : t' ∉ tl.map Prod.fst := (List.nodup_cons.mp hnd).1
    simp only [commitTopics]
    rw [countCalls_append]
    by_cases ht : t = t'
    · subst ht
      have htail : countCalls (commitTopics oracle c tl).2 c t g p = 0 := by
        apply countCalls_zero
        intro cc hcc
        obtain ⟨_, hmem⟩ := commitTopics_calls_path oracle c tl cc hcc
        intro hcontra
        rw [hcontra.2.1] at hmem
        exact htmem hmem
      simp [alLookup, htail]
    · have hhd : countCalls (commitGroups oracle c t' gm).2 c t g p = 0 := by
        apply countCalls_zero
        intro cc hcc
        obtain ⟨_, htt, _⟩ := commitGroups_calls_path oracle c t' gm cc hcc
        intro hcontra
        exact ht (hcontra.2.1.symm.trans htt)
      simp [alLookup, ht, hhd, ih hnd']

/-- Per-cluster lookup through the full flush. -/
theorem commitOffsets_fst_lookup (oracle : ResetOracle) (m : AckedOffsets)
    (c : String) :
    alLookup (commitOffsets oracle m).1 c =
      (alLookup m c).map (fun tm => (commitTopics oracle c tm).1) := by
  induction m with
  | nil => simp [commitOffsets, alLookup]
  | cons hd tl ih =>
    obtain ⟨c', tm⟩ := hd
    by_cases hc : c = c' <;> simp [commitOffsets, alLookup, hc, ih]

/-- Every call of the full flush is addressed to a cluster key of the map. -/
theorem commitOffsets_calls_path (oracle : ResetOracle) (m : AckedOffsets) :
    ∀ cc ∈ (commitOffsets oracle m).2, cc.cluster ∈ m.map Prod.fst := by
  induction m with
  | nil => intro cc hcc; simp [commitOffsets] at hcc
  | cons hd tl ih =>
    obtain ⟨c', tm⟩ := hd
    intro cc hcc
    simp only [commitOffsets, List.mem_append] at hcc
    rcases hcc with hcc | hcc
    · obtain ⟨hc, _⟩ := commitTopics_calls_path oracle c' tm cc hcc
      simp [hc]
    · have := ih cc hcc
      simp [this]

/-- Call count of the full flush reduces to the addressed cluster's topic
map. -/
theorem commitOffsets_calls_count (oracle : ResetOracle) (m : AckedOffsets)
    (hnd : keysNodup m) (c t g : String) (p : Int) :
    countCalls (commitOffsets oracle m).2 c t g p =
      match alLookup m c with
      | none => 0
      | some tm => countCalls (commitTopics oracle c tm).2 c t g p := by
  induction m with
  | nil => simp [commitOffsets, countCalls, alLookup]
  | cons hd tl ih =>
    obtain ⟨c', tm⟩ := hd
    have hnd' : keysNodup tl := (List.nodup_cons.mp hnd).2
    have hcmem : c' ∉ tl.map Prod.fst := (List.nodup_cons.mp hnd).1
    simp only [commitOffsets]
    rw [countCalls_append]
    by_cases hc : c = c'
    · subst hc
      have htail : countCalls (commitOffsets oracle tl).2 c t g p = 0 := by
        apply countCalls_zero
        intro cc hcc
        have hmem := commitOffsets_calls_path oracle tl cc hcc
        intro hcontra
        rw [hcontra.1] at hmem
        exact hcmem hmem
      simp [alLookup, htail]
    · have hhd : countCalls (commitTopics oracle c' tm).2 c t g p = 0 := by
        apply countCalls_zero
        intro cc hcc
        obtain ⟨hcc2, _⟩ := commitTopics_calls_path oracle c' tm cc hcc
        intro hcontra
        exact hc (hcontra.1.symm.trans hcc2)
      simp [alLookup, hc, hhd, ih hnd']

/-- Slot lookup through the full flush: every slot is rewritten by
commitSlot, keys and structure unchanged. -/
theorem lookupSlot_commitOffsets (oracle : ResetOracle) (m : AckedOffsets)
    (c t g : String) (p : Int) :
    lookupSlot (commitOffsets oracle m).1 c t g p =
      (lookupSlot m c t g p).map (fun o => (commitSlot oracle c t g p o).1) := by
  simp only [lookupSlot, lookupGroupMap, lookupTopicMap]
  rw [commitOffsets_fst_lookup]
  cases hc : alLookup m c with
  | none => rfl
  | some tm =>
    simp only [Option.map_some', Option.some_bind]
    rw [commitTopics_fst_lookup]
    cases ht : alLookup tm t with
    | none => rfl
    | some gm =>
      simp only [Option.map_some', Option.some_bind]
      rw [commitGroups_fst_lookup]
      cases hg : alLookup gm g with
      | none => rfl
      | some pm =>
        simp only [Option.map_some', Option.some_bind]
        rw [commitPartitions_fst_lookup]

/-- C3.  One flush run: the sentinel −1 is skipped (slot untouched, no
coord-store call); a non-sentinel slot gets exactly one offset-set call,
after which the slot is −1 when the call succeeded or reported the node
missing (never retried), and keeps its previous offset on any other error
(to be retried at the next flush). -/
theorem commitOffsets_slot_semantics (oracle : ResetOracle) (m : AckedOffsets)
    (hwf : WFAcked m) (c t g : String) (p o : Int)
    (hslot : lookupSlot m c t g p = some o) :
    (o = -1 →
      lookupSlot (commitOffsets oracle m).1 c t g p = some (-1) ∧
      countCalls (commitOffsets oracle m).2 c t g p = 0) ∧
    (o ≠ -1 →
      countCalls (commitOffsets oracle m).2 c t g p = 1 ∧
      lookupSlot (commitOffsets oracle m).1 c t g p =
        some (if oracle c t g p o = CommitResult.errOther then o else -1)) := by
  -- decompose the successful four-level lookup
  obtain ⟨pm, hgm, hpm⟩ : ∃ pm, lookupGroupMap m c t g = some pm ∧ alLookup pm p = some o := by
    cases hgm : lookupGroupMap m c t g with
    | none => simp [lookupSlot, hgm] at hslot
    | some pm => exact ⟨pm, rfl, by simpa [lookupSlot, hgm] using hslot⟩
  obtain ⟨gm, htm, hga⟩ : ∃ gm, lookupTopicMap m c t = some gm ∧ alLookup gm g = some pm := by
    cases htm : lookupTopicMap m c t with
    | none => simp [lookupGroupMap, htm] at hgm
    | some gm => exact ⟨gm, rfl, by simpa [lookupGroupMap, htm] using hgm⟩
  obtain ⟨tm, hcm, hta⟩ : ∃ tm, alLookup m c = some tm ∧ alLookup tm t = some gm := by
    cases hcm : alLookup m c with
    | none => simp [lookupTopicMap, hcm] at htm
    | some tm => exact ⟨tm, rfl, by simpa [lookupTopicMap, hcm] using htm⟩
  -- well-formedness at every level of the accessed path
  have htm_mem : (c, tm) ∈ m := mem_of_alLookup_eq_some m c tm hcm
  have hwf_tm := hwf.2 (c, tm) htm_mem
  have hgm_mem : (t, gm) ∈ tm := mem_of_alLookup_eq_some tm t gm hta
  have hwf_gm := hwf_tm.2 (t, gm) hgm_mem
  have hpm_mem : (g, pm) ∈ gm := mem_of_alLookup_eq_some gm g pm hga
  have hwf_pm := hwf_gm.2 (g, pm) hpm_mem
  -- the call count reduces level by level to the partition map
  have hcount : countCalls (commitOffsets oracle m).2 c t g p =
      (if o = -1 then 0 else 1) := by
    rw [commitOffsets_calls_count oracle m hwf.1 c t g p]
    simp only [hcm]
    rw [commitTopics_calls_count oracle c tm hwf_tm.1 t g p]
    simp only [hta]
    rw [commitGroups_calls_count oracle c t gm hwf_gm.1 g p]
    simp only [hga]
    rw [commitPartitions_calls_count oracle c t g pm hwf_pm p]
    simp only [hpm]
  have hnewslot : lookupSlot (commitOffsets oracle m).1 c t g p =
      some (if o = -1 then -1
        else if oracle c t g p o = CommitResult.errOther then o else -1) := by
    rw [lookupSlot_commitOffsets, hslot, Option.map_some', commitSlot_fst]
  constructor
  · intro ho
    refine ⟨?_, ?_⟩
    · rw [hnewslot]
      simp [ho]
    · rw [hcount]
      simp [ho]
  · intro ho
    refine ⟨?_, ?_⟩
    · rw [hcount]
      simp [ho]
    · rw [hnewslot]
      simp [ho]

/-- Witness for C3: a two-slot state (one sentinel, one live offset 42)
flushed against a coord store answering NodeMissing for partition 3: the
live slot gets exactly one call and becomes −1; the sentinel stays −1 with
no call. -/
theorem commitOffsets_slot_semantics_witness :
    countCalls
      (commitOffsets (fun _ _ _ _ _ => CommitResult.errNoNode)
        [("c", [("t", [("g", [(3, 42), (0, -1)])])])]).2 "c" "t" "g" 3 = 1 ∧
    lookupSlot
      (commitOffsets (fun _ _ _ _ _ => CommitResult.errNoNode)
        [("c", [("t", [("g", [(3, 42), (0, -1)])])])]).1 "c" "t" "g" 3 = some (-1) ∧
    countCalls
      (commitOffsets (fun _ _ _ _ _ => CommitResult.errNoNode)
        [("c", [("t", [("g", [(3, 42), (0, -1)])])])]).2 "c" "t" "g" 0 = 0 := by
  have hlive := (commitOffsets_slot_semantics (fun _ _ _ _ _ => CommitResult.errNoNode)
    [("c", [("t", [("g", [(3, 42), (0, -1)])])])]
    (by constructor <;> simp [keysNodup]) "c" "t" "g" 3 42 rfl).2 (by decide)
  have hsent := (commitOffsets_slot_semantics (fun _ _ _ _ _ => CommitResult.errNoNode)
    [("c", [("t", [("g", [(3, 42), (0, -1)])])])]
    (by constructor <;> simp [keysNodup]) "c" "t" "g" 0 (-1) rfl).1 rfl
  refine ⟨hlive.1, ?_, hsent.2⟩
  have := hlive.2
  simpa using this

end Gafka
